import Mathlib

/-!
Verification of the component-contribution microspecies transform engine and
compound cache layer, shallowly embedded from `compound.py` and
`compound_cacher.py`.

Modelling conventions:
* Python floats stored in `Compound` records (pKa values) are embedded as `ℚ`;
  the derived thermodynamic energies live in `ℝ`.
* External collaborators (the ChemAxon predictor `GetDissociationConstants`,
  the formula/charge extractor, openbabel conversions, the KEGG resolver and
  the openbabel element table) are grouped in an `Externals` record of abstract
  functions; the repository code is translated on top of them.
* `R` (the gas constant) and `debye_huckel` come from the repository module
  `thermodynamic_constants`, which is not part of the sources under
  verification; following the spec they are treated as an abstract positive
  constant and an abstract function of `(I, T)` respectively.
* `scipy.misc.logsumexp` is the mathematical log-sum-exp, embedded directly.
-/

/-- Python `l[:k]` slice semantics for an integer bound `k`: a nonnegative
bound takes the first `k` elements, a negative bound counts from the end,
clamping at zero. -/
def pythonTake {α : Type} (k : ℤ) (l : List α) : List α :=
  if 0 ≤ k then l.take k.toNat else l.take ((l.length : ℤ) + k).toNat

/-- Running prefix sums with accumulator `a`; `cumsumFrom a [x₁, x₂, …]`
is `[a + x₁, a + x₁ + x₂, …]`. -/
def cumsumFrom (a : ℚ) : List ℚ → List ℚ
  | [] => []
  | x :: xs => (a + x) :: cumsumFrom (a + x) xs

/-- Embeds `np.cumsum` on a list of rationals. -/
def cumsum (l : List ℚ) : List ℚ := cumsumFrom 0 l

/-- Row-wise pairing of three equal-length lists, modelling
`np.vstack([a, b, c]).T` (numpy requires the three lengths to agree). -/
def zip3 {α β γ : Type} : List α → List β → List γ → List (α × β × γ)
  | a :: as, b :: bs, c :: cs => (a, b, c) :: zip3 as bs cs
  | _, _, _ => []

/-- Lookup in an association list with string keys (a Python `dict` read). -/
def lookupAssoc {α : Type} : List (String × α) → String → Option α
  | [], _ => none
  | (k, v) :: rest, key => if k = key then some v else lookupAssoc rest key

/-- Overwriting insert into an association list (a Python `dict` assignment):
replaces the value of an existing key, otherwise appends. -/
def insertAssoc {α : Type} (key : String) (v : α) : List (String × α) → List (String × α)
  | [] => [(key, v)]
  | (k, w) :: rest => if k = key then (key, v) :: rest else (k, w) :: insertAssoc key v rest

/-- Python `dict.get(key, 0)` on an atom bag. -/
def bagGet (bag : List (String × ℤ)) (key : String) : ℤ :=
  (lookupAssoc bag key).getD 0

/-- The Python format string `'C%05d' % cid`. -/
def formatCid (cid : ℕ) : String :=
  let s := toString cid
  "C" ++ String.mk (List.replicate (5 - s.length) '0') ++ s

/-- Constant `MIN_PH` from `compound.py`. -/
def MIN_PH : ℚ := 0

/-- Constant `MAX_PH` from `compound.py`. -/
def MAX_PH : ℚ := 14

/-- External collaborators of the compound layer.
`getDissociationConstants` returns `none` on `ChemAxonError`;
`smiles2inchi` returns `none` when openbabel produces no InChI;
`getAtomBagAndCharge` abstracts `GetFormulaAndCharge` together with the
formula parsing in `get_atom_bag_and_charge_from_inchi`;
`get_inchi` abstracts the KEGG download plus `mol2inchi`;
`atomicNum` abstracts `OBElementTable.GetAtomicNum`. -/
structure Externals where
  getDissociationConstants : String → Option (List ℚ × String)
  smiles2inchi : String → Option String
  getAtomBagAndCharge : String → List (String × ℤ) × ℤ
  get_inchi : ℕ → Option String
  atomicNum : String → ℤ

/-- The `Compound` value object of `compound.py`. -/
structure Compound where
  database : String
  compound_id : String
  inchi : Option String
  pKas : List ℚ
  majorMSpH7 : ℤ
  nHs : List ℤ
  zs : List ℤ
deriving DecidableEq

/-- Embeds `Compound.get_species_pka` (with the default `moltype='inchi'`, the only
mode used by the repository's call sites).  Returns `none` when the code would
crash by handing `None` to `GetFormulaAndCharge` (openbabel conversion of the
dominant-species SMILES failed). -/
def Compound.get_species_pka (ext : Externals) (molstring : Option String) :
    Option (List ℚ × ℤ × List ℤ × List ℤ) :=
  match molstring with
  | none => some ([], -1, [], [])
  | some s =>
    let pk_mms : List ℚ × Option String :=
      match ext.getDissociationConstants s with
      | some (pKas0, major_ms) =>
        (List.insertionSort (· ≥ ·)
          (pKas0.filter (fun p => decide (MIN_PH < p ∧ p < MAX_PH))),
          ext.smiles2inchi major_ms)
      | none => ([], some s)
    match pk_mms.2 with
    | none => none
    | some major_ms_inchi =>
      let pKas := pk_mms.1
      let bc := ext.getAtomBagAndCharge major_ms_inchi
      let major_ms_nH := bagGet bc.1 "H"
      let n_species := pKas.length + 1
      let majorMSpH7 : ℤ :=
        if pKas = [] then 0 else ((pKas.filter (fun p => decide (7 < p))).length : ℤ)
      let nHs := (List.range n_species).map (fun i => ((i : ℤ) - majorMSpH7) + major_ms_nH)
      let zs := (List.range n_species).map (fun i => ((i : ℤ) - majorMSpH7) + bc.2)
      some (pKas, majorMSpH7, nHs, zs)

/-- Embeds `Compound.from_kegg`: resolve the structure, and either return the
degenerate single-microspecies ladder (for the proton C00080 or an absent
structure) or derive a ladder with `get_species_pka`. -/
def Compound.from_kegg (ext : Externals) (cid : ℕ) : Option Compound :=
  let inchi := ext.get_inchi cid
  if cid ∈ [80] ∨ inchi = none then
    some ⟨"KEGG", formatCid cid, inchi, [], 0, [0], [0]⟩
  else
    (Compound.get_species_pka ext inchi).map
      (fun r => ⟨"KEGG", formatCid cid, inchi, r.1, r.2.1, r.2.2.1, r.2.2.2⟩)

/-- Embeds `Compound.get_atom_bag_with_electrons`: elemental composition of the
compound's stored structure together with a synthetic electron count. -/
def Compound.get_atom_bag_with_electrons (ext : Externals) (c : Compound) :
    Option (List (String × ℤ)) :=
  match c.inchi with
  | none => none
  | some i =>
    let bc := ext.getAtomBagAndCharge i
    let n_protons := (bc.1.map (fun p => p.2 * ext.atomicNum p.1)).sum
    some (insertAssoc "e-" (n_protons - bc.2) bc.1)

/-- Embeds `np.log(10)`. -/
noncomputable def ln10 : ℝ := Real.log 10

/-- Embeds `scipy.misc.logsumexp`: the mathematical log-sum-exp of a list. -/
noncomputable def logSumExp (l : List ℝ) : ℝ :=
  Real.log ((l.map Real.exp).sum)

/-- Embeds `Compound._transform` from the source: the private shared Legendre-transform core. -/
noncomputable def Compound.«_transform» (R : ℝ) (dh : ℝ × ℝ → ℝ) (c : Compound)
    (pH I T : ℝ) : ℝ :=
  match c.inchi with
  | none => 0
  | some _ =>
    let dG0s : List ℝ :=
      if c.pKas = [] then [(0 : ℝ)]
      else (cumsum ((0 : ℚ) :: c.pKas)).map (fun s : ℚ => -(s : ℝ) * R * T * ln10)
    let DH := dh (I, T)
    let dG0_prime_vector :=
      (zip3 dG0s (c.nHs.map (fun n : ℤ => (n : ℝ))) (c.zs.map (fun z : ℤ => (z : ℝ)))).map
        (fun g => g.1 + g.2.1 * (R * T * ln10 * pH + DH) - g.2.2 ^ 2 * DH)
    let res := -R * T * logSumExp (dG0_prime_vector.map (fun x => x / (-R * T)))
    res

/-- Embeds `Compound.transform`: transform relative to the major microspecies at pH 7. -/
noncomputable def Compound.transform (R : ℝ) (dh : ℝ × ℝ → ℝ) (c : Compound)
    (pH I T : ℝ) : ℝ :=
  Compound.«_transform» R dh c pH I T +
    (((pythonTake c.majorMSpH7 c.pKas).sum : ℚ) : ℝ) * R * T * ln10

/-- Embeds `Compound.transform_neutral`: transform relative to the microspecies with
zero net charge; raises `ValueError` (embedded as `Except.error`) when no
species has charge 0. -/
noncomputable def Compound.transform_neutral (R : ℝ) (dh : ℝ × ℝ → ℝ) (c : Compound)
    (pH I T : ℝ) : Except String ℝ :=
  if (0 : ℤ) ∈ c.zs then
    Except.ok (Compound.«_transform» R dh c pH I T +
      (((pythonTake ((c.zs.indexOf 0 : ℕ) : ℤ) c.pKas).sum : ℚ) : ℝ) * R * T * ln10)
  else
    Except.error ("The compound (" ++ c.compound_id ++
      ") does not have a microspecies with 0 charge")

/-- The spec's `baseOffset(k)`: the sum of the first `k` pKa entries times
`R·T·ln 10` (with Python slice semantics for the integer index stored in a
compound record). -/
noncomputable def baseOffset (R : ℝ) (c : Compound) (k : ℤ) (T : ℝ) : ℝ :=
  (((pythonTake k c.pKas).sum : ℚ) : ℝ) * R * T * ln10

/-- Modelled from the spec: the reference definition of `core(pH, I, T)` in
§4.2 — cumulative energies `E[i] = -(Σ pKas[0..i)) · R·T·ln 10`, species
energies `V[i] = E[i] + nHs[i]·(R·T·ln 10·pH + D) - zs[i]²·D`, reduced by
`-R·T·logSumExp(V[i]/(-R·T))`; exactly `0` when the structure is absent. -/
noncomputable def coreSpec (R : ℝ) (dh : ℝ × ℝ → ℝ) (c : Compound)
    (pH I T : ℝ) : ℝ :=
  match c.inchi with
  | none => 0
  | some _ =>
    let D := dh (I, T)
    let E : ℕ → ℝ := fun i => -(((c.pKas.take i).sum : ℚ) : ℝ) * R * T * ln10
    let V : ℕ → ℝ := fun i =>
      E i + ((c.nHs.getD i 0 : ℤ) : ℝ) * (R * T * ln10 * pH + D) -
        ((c.zs.getD i 0 : ℤ) : ℝ) ^ 2 * D
    let res :=
      -R * T * logSumExp ((List.range (c.pKas.length + 1)).map (fun i => V i / (-R * T)))
    res

/-- Extract the value of a successful `transform_neutral` call (0 otherwise). -/
noncomputable def exceptValue (e : Except String ℝ) : ℝ :=
  match e with
  | Except.ok v => v
  | Except.error _ => 0

/-- A record of the persisted JSON cache format (`to_json_dict` fields). -/
structure CompoundJSON where
  database : String
  id : String
  inchi : Option String
  pKas : List ℚ
  majorMSpH7 : ℤ
  nHs : List ℤ
  zs : List ℤ
deriving DecidableEq

/-- Embeds `Compound.from_json_dict`: deserialize a persisted record, with no
validation of any kind. -/
def Compound.from_json_dict (d : CompoundJSON) : Compound :=
  ⟨d.database, d.id, d.inchi, d.pKas, d.majorMSpH7, d.nHs, d.zs⟩

/-- The mutable state of a `CompoundCacher`: the identity-keyed mapping, the
id list populated by `load`, and the dirty flag. -/
structure CacheState where
  compound_dict : List (String × Compound)
  compound_ids : List String
  need_to_update_cache_file : Bool
deriving DecidableEq

/-- One iteration of the `CompoundCacher.load` loop: record the id and store
the deserialized compound. -/
def CompoundCacher.loadStep (st : CacheState) (d : CompoundJSON) : CacheState :=
  { st with compound_ids := st.compound_ids ++ [d.id],
            compound_dict := insertAssoc d.id (Compound.from_json_dict d) st.compound_dict }

/-- Embeds `CompoundCacher.load`: parse the persisted records into a fresh mapping. -/
def CompoundCacher.load (records : List CompoundJSON) : CacheState :=
  records.foldl CompoundCacher.loadStep ⟨[], [], false⟩

/-- The last record of a persisted file carrying a given id, if any. -/
def findLast (records : List CompoundJSON) (key : String) : Option CompoundJSON :=
  records.foldl (fun acc d => if d.id = key then some d else acc) none

/-- Embeds `CompoundCacher.get_kegg_compound`, instrumented with a count of
`from_kegg` derivations performed (0 on a cache hit, 1 on a miss); `none`
models a crash inside the external derivation. -/
def CompoundCacher.get_kegg_compound (ext : Externals) (st : CacheState) (cid : ℕ) :
    Option (Compound × CacheState × ℕ) :=
  let compound_id := formatCid cid
  match lookupAssoc st.compound_dict compound_id with
  | some comp => some (comp, st, 0)
  | none =>
    match Compound.from_kegg ext cid with
    | none => none
    | some comp =>
      some (comp, { st with
        compound_dict := insertAssoc comp.compound_id comp st.compound_dict,
        need_to_update_cache_file := true }, 1)

/-- Embeds `CompoundCacher.get_kegg_additions`: reconcile the manual additions list
(rows of `(cid, inchi)`) against the cache, re-deriving the ladder with
`get_species_pka` whenever the id is missing or its InChI changed. -/
def CompoundCacher.get_kegg_additions (ext : Externals) (rows : List (ℕ × String))
    (st : CacheState) : Option CacheState :=
  rows.foldlM (fun st1 row =>
    let compound_id := formatCid row.1
    let inchi := row.2
    let changed : Bool :=
      match lookupAssoc st1.compound_dict compound_id with
      | none => true
      | some c => decide (c.inchi ≠ some inchi)
    if changed then
      match Compound.get_species_pka ext (some inchi) with
      | none => none
      | some r =>
        some { st1 with
          compound_dict := insertAssoc compound_id
            ⟨"KEGG", compound_id, some inchi, r.1, r.2.1, r.2.2.1, r.2.2.2⟩
            st1.compound_dict,
          need_to_update_cache_file := true }
    else some st1) st

/-- The union of the element keys of all determinable atom bags
(`elements = set(); elements.union(atom_bag.keys())`). -/
def collectKeys (bags : List (Option (List (String × ℤ)))) : List String :=
  bags.foldl (fun es b =>
    match b with
    | none => es
    | some bag => es ++ bag.map Prod.fst) []

/-- The matrix-building phase of `get_kegg_ematrix`: sorted element columns
with `'H'` discarded, and one row per atom bag — `none` entries model the
`np.nan` markers written for compounds without a determinable composition. -/
def ematrixOfBags (bags : List (Option (List (String × ℤ)))) :
    List String × List (List (Option ℤ)) :=
  let elements := List.insertionSort (· ≤ ·)
    (((collectKeys bags).dedup).filter (fun e => decide (e ≠ "H")))
  let rows := bags.map (fun b =>
    match b with
    | none => List.replicate elements.length (none : Option ℤ)
    | some bag => elements.map (fun e => some (bagGet bag e)))
  (elements, rows)

/-- Embeds `CompoundCacher.get_kegg_ematrix`: gather each compound's atom bag through
the cache, then build the elemental matrix. -/
def CompoundCacher.get_kegg_ematrix (ext : Externals) (st : CacheState)
    (cids : List ℕ) : Option (List String × List (List (Option ℤ)) × CacheState) :=
  (cids.foldlM (fun acc cid =>
      (CompoundCacher.get_kegg_compound ext acc.2 cid).map (fun r =>
        (acc.1 ++ [Compound.get_atom_bag_with_electrons ext r.1], r.2.1)))
    (([] : List (Option (List (String × ℤ)))), st)).map
    (fun p => ((ematrixOfBags p.1).1, (ematrixOfBags p.1).2, p.2))

/-- The element-column list produced for a list of compounds. -/
def ematrixElements (ext : Externals) (comps : List Compound) : List String :=
  (ematrixOfBags (comps.map (Compound.get_atom_bag_with_electrons ext))).1

/-- The matrix rows produced for a list of compounds. -/
def ematrixRows (ext : Externals) (comps : List Compound) : List (List (Option ℤ)) :=
  (ematrixOfBags (comps.map (Compound.get_atom_bag_with_electrons ext))).2

lemma cumsumFrom_eq_map (l : List ℚ) :
    ∀ a : ℚ, cumsumFrom a l = (List.range l.length).map (fun i => a + (l.take (i + 1)).sum) := by
  induction l with
  | nil => intro a; simp [cumsumFrom]
  | cons x xs ih =>
    intro a
    simp only [cumsumFrom, List.length_cons, List.range_succ_eq_map, List.map_cons,
      List.map_map]
    refine List.cons_eq_cons.mpr ⟨by simp, ?_⟩
    rw [ih (a + x)]
    apply List.map_congr_left
    intro i _
    simp [List.sum_cons, add_assoc]

lemma cumsum_zero_cons (l : List ℚ) :
    cumsum ((0 : ℚ) :: l) = (List.range (l.length + 1)).map (fun i => (l.take i).sum) := by
  show cumsumFrom 0 ((0 : ℚ) :: l) = _
  rw [cumsumFrom_eq_map]
  simp only [List.length_cons]
  apply List.map_congr_left
  intro i _
  simp

lemma getD_map_of_lt {α β : Type} (f : α → β) (d : β) (d2 : α) :
    ∀ (l : List α) (i : ℕ), i < l.length → (l.map f).getD i d = f (l.getD i d2) := by
  intro l
  induction l with
  | nil => intro i h; simp at h
  | cons x xs ih =>
    intro i h
    cases i with
    | zero => simp
    | succ j =>
      simp only [List.map_cons, List.getD_cons_succ]
      exact ih j (by simpa using h)

lemma getD_range_of_lt (n i : ℕ) (d : ℕ) (h : i < n) : (List.range n).getD i d = i := by
  rw [List.getD_eq_getElem _ _ (by simpa using h)]
  simp

lemma zip3_map_eq_range {α β γ δ : Type} (f : α × β × γ → δ) (da : α) (db : β) (dc : γ) :
    ∀ (as : List α) (bs : List β) (cs : List γ),
      bs.length = as.length → cs.length = as.length →
      (zip3 as bs cs).map f =
        (List.range as.length).map (fun i => f (as.getD i da, bs.getD i db, cs.getD i dc)) := by
  intro as
  induction as with
  | nil =>
    intro bs cs h1 h2
    cases bs <;> cases cs <;> simp_all [zip3]
  | cons a as ih =>
    intro bs cs h1 h2
    cases bs with
    | nil => simp at h1
    | cons b bs =>
      cases cs with
      | nil => simp at h2
      | cons c cs =>
        simp only [zip3, List.map_cons, List.length_cons, List.range_succ_eq_map,
          List.map_map]
        refine List.cons_eq_cons.mpr ⟨by simp, ?_⟩
        rw [ih bs cs (by simpa using h1) (by simpa using h2)]
        apply List.map_congr_left
        intro i _
        simp [Function.comp, List.getD_cons_succ]

lemma dG0s_eq_map_range (R T : ℝ) (l : List ℚ) :
    (if l = [] then [(0 : ℝ)]
      else (cumsum ((0 : ℚ) :: l)).map (fun s : ℚ => -(s : ℝ) * R * T * ln10)) =
    (List.range (l.length + 1)).map
      (fun i => -(((l.take i).sum : ℚ) : ℝ) * R * T * ln10) := by
  split
  · subst_eqs
    simp
  · rw [cumsum_zero_cons, List.map_map]
    rfl

/-- Claim C1: `transform(pH, I, T)` returns
`baseOffset(majorMSIndex) + core(pH, I, T)` where the shared core is
`_transform` and `baseOffset(k)` is the partial pKa sum times `R·T·ln 10`. -/
theorem claimC1 (R : ℝ) (dh : ℝ × ℝ → ℝ) (c : Compound) (pH I T : ℝ) :
    Compound.transform R dh c pH I T =
      baseOffset R c c.majorMSpH7 T + Compound.«_transform» R dh c pH I T ∧
    ∀ k : ℕ, baseOffset R c (k : ℤ) T = (((c.pKas.take k).sum : ℚ) : ℝ) * R * T * ln10 := by
  constructor
  · rw [Compound.transform, baseOffset, add_comm]
  · intro k
    rw [baseOffset, pythonTake]
    simp

/-- Claim C2: the private shared core `_transform` coincides with the spec's
reference definition `coreSpec` (cumulative energies, Debye–Hückel corrected
per-species energies, log-sum-exp reduction; exactly 0 for an absent
structure), for every compound whose ladder lists have the invariant lengths
`len(pKas) + 1`. -/
theorem claimC2 (R : ℝ) (dh : ℝ × ℝ → ℝ) (c : Compound) (pH I T : ℝ)
    (hn : c.nHs.length = c.pKas.length + 1) (hz : c.zs.length = c.pKas.length + 1) :
    Compound.«_transform» R dh c pH I T = coreSpec R dh c pH I T := by
  rcases hi : c.inchi with _ | s
  · simp [Compound.«_transform», coreSpec, hi]
  · simp only [Compound.«_transform», coreSpec, hi]
    rw [dG0s_eq_map_range R T c.pKas]
    rw [zip3_map_eq_range _ 0 0 0 _ _ _
      (by simp [hn]) (by simp [hz])]
    simp only [List.length_map, List.length_range, List.map_map]
    congr 2
    apply List.map_congr_left
    intro i hmem
    have hilt : i < c.pKas.length + 1 := List.mem_range.mp hmem
    have h1 : ((List.range (c.pKas.length + 1)).map
        (fun i => -(((c.pKas.take i).sum : ℚ) : ℝ) * R * T * ln10)).getD i 0 =
        -(((c.pKas.take i).sum : ℚ) : ℝ) * R * T * ln10 := by
      rw [getD_map_of_lt _ _ 0 _ _ (by simpa using hilt)]
      rw [getD_range_of_lt _ _ _ hilt]
    have h2 : (c.nHs.map (fun n : ℤ => (n : ℝ))).getD i 0 = ((c.nHs.getD i 0 : ℤ) : ℝ) := by
      rw [getD_map_of_lt _ _ 0 _ _ (by omega)]
    have h3 : (c.zs.map (fun z : ℤ => (z : ℝ))).getD i 0 = ((c.zs.getD i 0 : ℤ) : ℝ) := by
      rw [getD_map_of_lt _ _ 0 _ _ (by omega)]
    simp only [Function.comp]
    rw [h1, h2, h3]

/-- A concrete gas-constant value used to instantiate witnesses. -/
noncomputable def R0 : ℝ := 1

/-- A concrete Debye–Hückel collaborator used to instantiate witnesses. -/
noncomputable def dh0 : ℝ × ℝ → ℝ := fun _ => 0

/-- A concrete well-formed compound with a three-species ladder. -/
def cW2 : Compound := ⟨"KEGG", "C00002", some "IX", [8, 3], 1, [0, 1, 2], [-1, 0, 1]⟩

/-- Claim C2 witness: the core/reference agreement evaluated on a concrete
three-species compound. -/
theorem claimC2_witness :
    (cW2.nHs.length = cW2.pKas.length + 1 ∧ cW2.zs.length = cW2.pKas.length + 1) ∧
    Compound.«_transform» R0 dh0 cW2 7 0 1 = coreSpec R0 dh0 cW2 7 0 1 :=
  ⟨⟨by decide, by decide⟩, claimC2 R0 dh0 cW2 7 0 1 (by decide) (by decide)⟩

/-- Claim C3: `transform_neutral` fails exactly when no species has charge 0,
and otherwise returns `baseOffset(indexOfZeroCharge) + core(pH, I, T)`. -/
theorem claimC3 (R : ℝ) (dh : ℝ × ℝ → ℝ) (c : Compound) (pH I T : ℝ) :
    ((∃ msg, Compound.transform_neutral R dh c pH I T = Except.error msg) ↔
      (0 : ℤ) ∉ c.zs) ∧
    ((0 : ℤ) ∈ c.zs → Compound.transform_neutral R dh c pH I T =
      Except.ok (baseOffset R c ((c.zs.indexOf 0 : ℕ) : ℤ) T +
        Compound.«_transform» R dh c pH I T)) := by
  unfold Compound.transform_neutral
  by_cases h : (0 : ℤ) ∈ c.zs
  · rw [if_pos h]
    refine ⟨⟨fun ⟨msg, hmsg⟩ => by simp at hmsg, fun h0 => absurd h h0⟩, fun _ => ?_⟩
    rw [baseOffset, add_comm]
  · rw [if_neg h]
    exact ⟨⟨fun _ => h, fun _ => ⟨_, rfl⟩⟩, fun h0 => absurd h0 h⟩

/-- Claim C3 witness: a successful neutral transform on a compound whose
second species carries charge 0. -/
theorem claimC3_witness :
    (0 : ℤ) ∈ cW2.zs ∧
    Compound.transform_neutral R0 dh0 cW2 7 0 1 =
      Except.ok (baseOffset R0 cW2 ((cW2.zs.indexOf 0 : ℕ) : ℤ) 1 +
        Compound.«_transform» R0 dh0 cW2 7 0 1) :=
  ⟨by decide, (claimC3 R0 dh0 cW2 7 0 1).2 (by decide)⟩

/-- Claim C9 (amended): whenever some species has charge 0, the difference
`transform - transformNeutral` equals
`baseOffset(majorMSIndex) - baseOffset(indexOfZeroCharge)`; the right-hand
side mentions neither pH nor I, so the difference is independent of pH and I
(it is proportional to T through `baseOffset`). -/
theorem claimC9 (R : ℝ) (dh : ℝ × ℝ → ℝ) (c : Compound) (pH I T : ℝ)
    (h : (0 : ℤ) ∈ c.zs) :
    ∃ v, Compound.transform_neutral R dh c pH I T = Except.ok v ∧
      Compound.transform R dh c pH I T - v =
        baseOffset R c c.majorMSpH7 T - baseOffset R c ((c.zs.indexOf 0 : ℕ) : ℤ) T := by
  unfold Compound.transform_neutral
  rw [if_pos h]
  exact ⟨_, rfl, by unfold Compound.transform baseOffset; ring⟩

/-- A compound whose major-microspecies offset and zero-charge offset differ:
one pKa of 8, dominant species at index 1, zero charge at index 0. -/
def c9c : Compound := ⟨"KEGG", "C00009", some "X", [8], 1, [0, 1], [0, 1]⟩

/-- Claim C9 counterexample: for `c9c` the difference
`transform - transformNeutral` at T = 1 differs from the one at T = 2
(with pH = 7, I = 0 fixed), so the difference is not independent of T as the
claim states. -/
theorem claimC9_counterexample :
    Compound.transform R0 dh0 c9c 7 0 1 -
        exceptValue (Compound.transform_neutral R0 dh0 c9c 7 0 1) ≠
      Compound.transform R0 dh0 c9c 7 0 2 -
        exceptValue (Compound.transform_neutral R0 dh0 c9c 7 0 2) := by
  have hz : (0 : ℤ) ∈ c9c.zs := by decide
  have h1 : ((pythonTake c9c.majorMSpH7 c9c.pKas).sum : ℚ) = 8 := by
    norm_num [c9c, pythonTake]
  have h2 : ((pythonTake ((c9c.zs.indexOf 0 : ℕ) : ℤ) c9c.pKas).sum : ℚ) = 0 := by
    norm_num [c9c, pythonTake, List.indexOf, List.findIdx, List.findIdx.go]
  have hlog : 0 < Real.log 10 := Real.log_pos (by norm_num)
  unfold Compound.transform
  unfold Compound.transform_neutral
  rw [if_pos hz, if_pos hz]
  simp only [exceptValue, h1, h2, R0, ln10]
  push_cast
  intro hEq
  ring_nf at hEq
  linarith [hlog]

/-- Claim C9 witness: the constant-difference identity evaluated on a concrete
compound with a zero-charge species. -/
theorem claimC9_witness :
    (0 : ℤ) ∈ cW2.zs ∧
    ∃ v, Compound.transform_neutral R0 dh0 cW2 7 0 1 = Except.ok v ∧
      Compound.transform R0 dh0 cW2 7 0 1 - v =
        baseOffset R0 cW2 cW2.majorMSpH7 1 -
          baseOffset R0 cW2 ((cW2.zs.indexOf 0 : ℕ) : ℤ) 1 :=
  ⟨by decide, claimC9 R0 dh0 cW2 7 0 1 (by decide)⟩

/-- Claim C5: for the proton (KEGG cid 80) and for any identity whose
structure resolution yields nothing, `from_kegg` returns the degenerate
single-microspecies ladder. -/
theorem claimC5 (ext : Externals) (cid : ℕ)
    (h : cid = 80 ∨ ext.get_inchi cid = none) :
    Compound.from_kegg ext cid =
      some ⟨"KEGG", formatCid cid, ext.get_inchi cid, [], 0, [0], [0]⟩ := by
  unfold Compound.from_kegg
  have hc : cid ∈ [80] ∨ ext.get_inchi cid = none := by
    rcases h with h | h
    · exact Or.inl (by simp [h])
    · exact Or.inr h
  rw [if_pos hc]

/-- External collaborators that always fail to resolve a structure. -/
def extN : Externals :=
  { getDissociationConstants := fun _ => none
    smiles2inchi := fun _ => none
    getAtomBagAndCharge := fun _ => ([], 0)
    get_inchi := fun _ => none
    atomicNum := fun _ => 0 }

/-- Claim C5 witness: the degenerate ladder for the proton C00080. -/
theorem claimC5_witness :
    (80 = 80 ∨ extN.get_inchi 80 = none) ∧
    Compound.from_kegg extN 80 =
      some ⟨"KEGG", formatCid 80, extN.get_inchi 80, [], 0, [0], [0]⟩ :=
  ⟨Or.inl rfl, claimC5 extN 80 (Or.inl rfl)⟩

/-- Claim C4: on the Predictor success path, `get_species_pka` keeps exactly
the candidate pKas strictly inside (0, 14), sorted descending, sets the major
microspecies index to the count of filtered pKas above 7, and builds the
`nHs`/`zs` ladders as arithmetic progressions anchored at the dominant
species' hydrogen count and net charge. -/
theorem claimC4 (ext : Externals) (s : String) (raw : List ℚ) (mms mmsInchi : String)
    (h1 : ext.getDissociationConstants s = some (raw, mms))
    (h2 : ext.smiles2inchi mms = some mmsInchi) :
    ∃ pk m nHs zs,
      Compound.get_species_pka ext (some s) = some (pk, m, nHs, zs) ∧
      pk.Perm (raw.filter (fun p => decide (MIN_PH < p ∧ p < MAX_PH))) ∧
      List.Sorted (· ≥ ·) pk ∧
      m = ((pk.filter (fun p => decide (7 < p))).length : ℤ) ∧
      nHs = (List.range (pk.length + 1)).map
        (fun i => ((i : ℤ) - m) + bagGet (ext.getAtomBagAndCharge mmsInchi).1 "H") ∧
      zs = (List.range (pk.length + 1)).map
        (fun i => ((i : ℤ) - m) + (ext.getAtomBagAndCharge mmsInchi).2) := by
  simp only [Compound.get_species_pka, h1, h2]
  refine ⟨_, _, _, _, rfl, List.perm_insertionSort _ _, List.sorted_insertionSort _ _,
    ?_, rfl, rfl⟩
  split
  · rename_i h
    rw [h]
    simp
  · rfl

/-- External collaborators with a concrete predictor outcome: three raw pKas
(one of them outside (0, 14)), a dominant species with 3 hydrogens and net
charge -1. -/
def extW : Externals :=
  { getDissociationConstants := fun _ => some ([3, 15, 9], "S")
    smiles2inchi := fun _ => some "SI"
    getAtomBagAndCharge := fun _ => ([("H", 3)], -1)
    get_inchi := fun _ => some "IX"
    atomicNum := fun _ => 1 }

/-- Claim C4 witness: the ladder derivation on the concrete predictor
outcome of `extW`. -/
theorem claimC4_witness :
    (extW.getDissociationConstants "IX" = some ([3, 15, 9], "S") ∧
      extW.smiles2inchi "S" = some "SI") ∧
    ∃ pk m nHs zs,
      Compound.get_species_pka extW (some "IX") = some (pk, m, nHs, zs) ∧
      pk.Perm (([3, 15, 9] : List ℚ).filter (fun p => decide (MIN_PH < p ∧ p < MAX_PH))) ∧
      List.Sorted (· ≥ ·) pk ∧
      m = ((pk.filter (fun p => decide (7 < p))).length : ℤ) ∧
      nHs = (List.range (pk.length + 1)).map
        (fun i => ((i : ℤ) - m) + bagGet (extW.getAtomBagAndCharge "SI").1 "H") ∧
      zs = (List.range (pk.length + 1)).map
        (fun i => ((i : ℤ) - m) + (extW.getAtomBagAndCharge "SI").2) :=
  ⟨⟨rfl, rfl⟩, claimC4 extW "IX" [3, 15, 9] "S" "SI" rfl rfl⟩

lemma lookupAssoc_insertAssoc_self {α : Type} (k : String) (v : α)
    (d : List (String × α)) : lookupAssoc (insertAssoc k v d) k = some v := by
  induction d with
  | nil => simp [insertAssoc, lookupAssoc]
  | cons p rest ih =>
    obtain ⟨k2, v2⟩ := p
    by_cases hk : k2 = k
    · simp [insertAssoc, hk, lookupAssoc]
    · simp [insertAssoc, hk, lookupAssoc, ih]

lemma from_kegg_compound_id (ext : Externals) (cid : ℕ) (comp : Compound)
    (h : Compound.from_kegg ext cid = some comp) :
    comp.compound_id = formatCid cid := by
  simp only [Compound.from_kegg] at h
  split at h
  · injection h with h2
    subst h2
    rfl
  · rcases hsp : Compound.get_species_pka ext (ext.get_inchi cid) with _ | r
    · rw [hsp] at h
      simp at h
    · rw [hsp] at h
      simp only [Option.map] at h
      injection h with h2
      subst h2
      rfl

/-- Claim C6: a `get_kegg_compound` call for an identity already in the
mapping returns the stored Compound with the state unchanged and performs no
derivation; two sequential calls for the same identity perform at most one
derivation, return the same Compound, and the second call never changes the
state. -/
theorem claimC6 (ext : Externals) (st : CacheState) (cid : ℕ) :
    (∀ comp, lookupAssoc st.compound_dict (formatCid cid) = some comp →
      CompoundCacher.get_kegg_compound ext st cid = some (comp, st, 0)) ∧
    (∀ c1 st1 n1 c2 st2 n2,
      CompoundCacher.get_kegg_compound ext st cid = some (c1, st1, n1) →
      CompoundCacher.get_kegg_compound ext st1 cid = some (c2, st2, n2) →
      n1 + n2 ≤ 1 ∧ c2 = c1 ∧ st2 = st1) := by
  constructor
  · intro comp h
    simp [CompoundCacher.get_kegg_compound, h]
  · intro c1 st1 n1 c2 st2 n2 h1 h2
    rcases hl : lookupAssoc st.compound_dict (formatCid cid) with _ | comp
    · simp only [CompoundCacher.get_kegg_compound, hl] at h1
      rcases hf : Compound.from_kegg ext cid with _ | comp
      · rw [hf] at h1
        simp at h1
      · rw [hf] at h1
        replace h1 := h1.symm
        simp only [Option.some.injEq, Prod.mk.injEq] at h1
        obtain ⟨rfl, rfl, rfl⟩ := h1
        have hid : c1.compound_id = formatCid cid :=
          from_kegg_compound_id ext cid c1 hf
        have hlook : lookupAssoc
            (insertAssoc c1.compound_id c1 st.compound_dict) (formatCid cid) =
            some c1 := by
          rw [hid]
          exact lookupAssoc_insertAssoc_self _ _ _
        simp only [CompoundCacher.get_kegg_compound, hlook] at h2
        replace h2 := h2.symm
        simp only [Option.some.injEq, Prod.mk.injEq] at h2
        obtain ⟨rfl, rfl, rfl⟩ := h2
        exact ⟨by omega, rfl, rfl⟩
    · simp only [CompoundCacher.get_kegg_compound, hl] at h1
      replace h1 := h1.symm
      simp only [Option.some.injEq, Prod.mk.injEq] at h1
      obtain ⟨rfl, rfl, rfl⟩ := h1
      simp only [CompoundCacher.get_kegg_compound, hl] at h2
      replace h2 := h2.symm
      simp only [Option.some.injEq, Prod.mk.injEq] at h2
      obtain ⟨rfl, rfl, rfl⟩ := h2
      exact ⟨by omega, rfl, rfl⟩

/-- A degenerate compound stored in a concrete cache state. -/
def cW6 : Compound := ⟨"KEGG", "C00005", none, [], 0, [0], [0]⟩

/-- A concrete cache state already holding `C00005`. -/
def stW : CacheState := ⟨[("C00005", cW6)], ["C00005"], false⟩

/-- Claim C6 witness: a cache hit on the concrete state `stW` returns the
stored compound, leaves the state unchanged and performs no derivation. -/
theorem claimC6_witness :
    CompoundCacher.get_kegg_compound extN stW 5 = some (cW6, stW, 0) :=
  (claimC6 extN stW 5).1 cW6 (by decide)

lemma lookupAssoc_insertAssoc_ne {α : Type} (k2 k : String) (hne : k2 ≠ k) (v : α) :
    ∀ d : List (String × α), lookupAssoc (insertAssoc k2 v d) k = lookupAssoc d k := by
  intro d
  induction d with
  | nil => simp [insertAssoc, lookupAssoc, hne]
  | cons p rest ih =>
    obtain ⟨k3, v3⟩ := p
    by_cases h3 : k3 = k2
    · subst h3
      simp [insertAssoc, lookupAssoc, hne]
    · by_cases h4 : k3 = k
      · subst h4
        simp [insertAssoc, lookupAssoc, h3]
      · simp [insertAssoc, lookupAssoc, h3, h4, ih]

lemma load_foldl_flag : ∀ (rs : List CompoundJSON) (st0 : CacheState),
    (rs.foldl CompoundCacher.loadStep st0).need_to_update_cache_file =
      st0.need_to_update_cache_file := by
  intro rs
  induction rs with
  | nil => intro st0; rfl
  | cons d rest ih => intro st0; rw [List.foldl_cons, ih]; rfl

lemma load_foldl_ids : ∀ (rs : List CompoundJSON) (st0 : CacheState),
    (rs.foldl CompoundCacher.loadStep st0).compound_ids =
      st0.compound_ids ++ rs.map (fun d => d.id) := by
  intro rs
  induction rs with
  | nil => intro st0; simp
  | cons d rest ih =>
    intro st0
    rw [List.foldl_cons, ih]
    simp [CompoundCacher.loadStep]

lemma findLast_foldl_acc (k : String) :
    ∀ (rs : List CompoundJSON) (acc : Option CompoundJSON),
    rs.foldl (fun acc d => if d.id = k then some d else acc) acc =
      match rs.foldl (fun acc d => if d.id = k then some d else acc) none with
      | some d => some d
      | none => acc := by
  intro rs
  induction rs with
  | nil => intro acc; rfl
  | cons d rest ih =>
    intro acc
    rw [List.foldl_cons, List.foldl_cons, ih (if d.id = k then some d else acc),
      ih (if d.id = k then some d else none)]
    rcases hrest : rest.foldl (fun acc d => if d.id = k then some d else acc) none
      with _ | d2
    · simp only [hrest]
      by_cases hd : d.id = k <;> simp [hd]
    · simp only [hrest]

lemma load_lookup (k : String) : ∀ (rs : List CompoundJSON) (st0 : CacheState),
    lookupAssoc (rs.foldl CompoundCacher.loadStep st0).compound_dict k =
      match findLast rs k with
      | some d => some (Compound.from_json_dict d)
      | none => lookupAssoc st0.compound_dict k := by
  intro rs
  induction rs with
  | nil => intro st0; rfl
  | cons d rest ih =>
    intro st0
    rw [List.foldl_cons, ih (CompoundCacher.loadStep st0 d)]
    have hfl : findLast (d :: rest) k =
        match findLast rest k with
        | some d2 => some d2
        | none => if d.id = k then some d else none := by
      show rest.foldl _ (if d.id = k then some d else none) = _
      rw [findLast_foldl_acc k rest (if d.id = k then some d else none)]
      rfl
    rw [hfl]
    rcases hrest : findLast rest k with _ | d2
    · by_cases hd : d.id = k
      · subst hd
        simp [CompoundCacher.loadStep, lookupAssoc_insertAssoc_self]
      · simp only [if_neg hd]
        show lookupAssoc (insertAssoc d.id (Compound.from_json_dict d) st0.compound_dict) k =
          lookupAssoc st0.compound_dict k
        exact lookupAssoc_insertAssoc_ne d.id k hd _ _
    · rfl

/-- Claim C7 (amended): `load` performs no invariant validation at all —
every persisted record is deserialized with `from_json_dict` and stored under
its id as-is (the last record wins for a duplicated id), the id list mirrors
the file order, and the cache is not marked dirty; malformed records are
neither dropped nor re-derived. -/
theorem claimC7 (records : List CompoundJSON) :
    (CompoundCacher.load records).need_to_update_cache_file = false ∧
    (CompoundCacher.load records).compound_ids = records.map (fun d => d.id) ∧
    ∀ k, lookupAssoc (CompoundCacher.load records).compound_dict k =
      Option.map Compound.from_json_dict (findLast records k) := by
  refine ⟨?_, ?_, ?_⟩
  · show (records.foldl CompoundCacher.loadStep ⟨[], [], false⟩).need_to_update_cache_file = _
    rw [load_foldl_flag]
  · show (records.foldl CompoundCacher.loadStep ⟨[], [], false⟩).compound_ids = _
    rw [load_foldl_ids]
    rfl
  · intro k
    show lookupAssoc (records.foldl CompoundCacher.loadStep ⟨[], [], false⟩).compound_dict k = _
    rw [load_lookup k records]
    rcases h : findLast records k with _ | d
    · simp [lookupAssoc]
    · simp

/-- A persisted record violating the ladder-shape invariant:
`len(nHs) = 0 ≠ len(pKas) + 1 = 1`. -/
def badRec : CompoundJSON := ⟨"KEGG", "C00001", some "X", [], 0, [], []⟩

/-- Claim C7 counterexample: loading a cache holding only the malformed
record `badRec` stores it verbatim — the resulting compound violates
`len(nHs) = len(pKas) + 1`, so the entry was neither dropped nor re-derived. -/
theorem claimC7_counterexample :
    lookupAssoc (CompoundCacher.load [badRec]).compound_dict "C00001" =
      some (Compound.from_json_dict badRec) ∧
    (Compound.from_json_dict badRec).nHs.length ≠
      (Compound.from_json_dict badRec).pKas.length + 1 := by
  constructor
  · rfl
  · decide

lemma insertAssoc_keys_self {α : Type} (k : String) (v : α) :
    ∀ b : List (String × α), k ∈ (insertAssoc k v b).map Prod.fst := by
  intro b
  induction b with
  | nil => simp [insertAssoc]
  | cons p rest ih =>
    obtain ⟨k2, v2⟩ := p
    by_cases h : k2 = k
    · simp [insertAssoc, h]
    · simp only [insertAssoc, if_neg h, List.map_cons]
      exact List.mem_cons_of_mem _ ih

lemma collectKeys_mem_init :
    ∀ (bags : List (Option (List (String × ℤ)))) (init : List String) (x : String),
    x ∈ init → x ∈ bags.foldl (fun es b =>
      match b with
      | none => es
      | some bag => es ++ bag.map Prod.fst) init := by
  intro bags
  induction bags with
  | nil => intro init x hx; simpa using hx
  | cons b rest ih =>
    intro init x hx
    rw [List.foldl_cons]
    apply ih
    cases b with
    | none => exact hx
    | some bag => exact List.mem_append_left _ hx

lemma mem_collectKeys_of_mem :
    ∀ (bags : List (Option (List (String × ℤ)))) (init : List String)
      (bag : List (String × ℤ)) (x : String),
    some bag ∈ bags → x ∈ bag.map Prod.fst → x ∈ bags.foldl (fun es b =>
      match b with
      | none => es
      | some bag => es ++ bag.map Prod.fst) init := by
  intro bags
  induction bags with
  | nil => intro init bag x hb _; simp at hb
  | cons b rest ih =>
    intro init bag x hb hx
    rw [List.foldl_cons]
    rcases List.mem_cons.mp hb with hb1 | hb2
    · subst hb1
      exact collectKeys_mem_init rest _ x (List.mem_append_right _ hx)
    · exact ih _ bag x hb2 hx

lemma ematrixElements_eq (ext : Externals) (comps : List Compound) :
    ematrixElements ext comps = List.insertionSort (· ≤ ·)
      (((collectKeys (comps.map (Compound.get_atom_bag_with_electrons ext))).dedup).filter
        (fun e => decide (e ≠ "H"))) := rfl

lemma ematrixRows_eq (ext : Externals) (comps : List Compound) :
    ematrixRows ext comps =
      (comps.map (Compound.get_atom_bag_with_electrons ext)).map (fun b =>
        match b with
        | none => List.replicate (ematrixElements ext comps).length (none : Option ℤ)
        | some bag => (ematrixElements ext comps).map (fun e => some (bagGet bag e))) := rfl

/-- Claim C8 (amended): the element columns are sorted with hydrogen
excluded; whenever at least one compound's composition is determinable the
columns include the synthetic electron pseudo-element, whose per-compound
value is the atomic-number-weighted element count minus the net charge of the
compound's stored structure; compounds with a composition fill their row with
per-element counts (0 for absent elements) while compounds without one yield
an entire row of not-a-number markers. -/
theorem claimC8 (ext : Externals) (comps : List Compound) :
    List.Sorted (· ≤ ·) (ematrixElements ext comps) ∧
    "H" ∉ ematrixElements ext comps ∧
    ((∃ c ∈ comps, c.inchi ≠ none) → "e-" ∈ ematrixElements ext comps) ∧
    ematrixRows ext comps = comps.map (fun c =>
      match Compound.get_atom_bag_with_electrons ext c with
      | none => List.replicate (ematrixElements ext comps).length (none : Option ℤ)
      | some bag => (ematrixElements ext comps).map (fun e => some (bagGet bag e))) ∧
    (∀ c ∈ comps, ∀ i, c.inchi = some i →
      ∃ bagE, Compound.get_atom_bag_with_electrons ext c = some bagE ∧
        bagGet bagE "e-" =
          ((ext.getAtomBagAndCharge i).1.map (fun p => p.2 * ext.atomicNum p.1)).sum -
            (ext.getAtomBagAndCharge i).2) := by
  refine ⟨?_, ?_, ?_, ?_, ?_⟩
  · rw [ematrixElements_eq]
    exact List.sorted_insertionSort _ _
  · rw [ematrixElements_eq]
    intro hmem
    have h2 := ((List.perm_insertionSort _ _).mem_iff).mp hmem
    simp at h2
  · rintro ⟨c, hc, hinchi⟩
    rcases hi : c.inchi with _ | i
    · exact absurd hi hinchi
    · rw [ematrixElements_eq]
      apply ((List.perm_insertionSort _ _).mem_iff).mpr
      apply List.mem_filter.mpr
      refine ⟨List.mem_dedup.mpr ?_, by simp⟩
      have hbag : Compound.get_atom_bag_with_electrons ext c =
          some (insertAssoc "e-"
            (((ext.getAtomBagAndCharge i).1.map (fun p => p.2 * ext.atomicNum p.1)).sum -
              (ext.getAtomBagAndCharge i).2)
            (ext.getAtomBagAndCharge i).1) := by
        simp [Compound.get_atom_bag_with_electrons, hi]
      have hmemb : some (insertAssoc "e-"
          (((ext.getAtomBagAndCharge i).1.map (fun p => p.2 * ext.atomicNum p.1)).sum -
            (ext.getAtomBagAndCharge i).2)
          (ext.getAtomBagAndCharge i).1) ∈
          comps.map (Compound.get_atom_bag_with_electrons ext) := by
        rw [← hbag]
        exact List.mem_map_of_mem _ hc
      exact mem_collectKeys_of_mem _ [] _ "e-" hmemb (insertAssoc_keys_self _ _ _)
  · rw [ematrixRows_eq, List.map_map]
    rfl
  · intro c hc i hi
    refine ⟨insertAssoc "e-"
      (((ext.getAtomBagAndCharge i).1.map (fun p => p.2 * ext.atomicNum p.1)).sum -
        (ext.getAtomBagAndCharge i).2)
      (ext.getAtomBagAndCharge i).1, ?_, ?_⟩
    · simp [Compound.get_atom_bag_with_electrons, hi]
    · show (lookupAssoc _ _).getD 0 = _
      rw [lookupAssoc_insertAssoc_self]
      rfl

/-- The cache state after deriving the structureless proton through the
failing resolver `extN`. -/
def stN : CacheState :=
  ⟨[("C00080", ⟨"KEGG", "C00080", none, [], 0, [0], [0]⟩)], [], true⟩

/-- Claim C8 counterexample: asking for the single compound C00080 (whose
structure is absent) yields an empty element-column list — in particular no
synthetic electron column — while the claim promises an `'e-'` column for
every input sequence. -/
theorem claimC8_counterexample :
    CompoundCacher.get_kegg_ematrix extN ⟨[], [], false⟩ [80] =
      some ([], [[]], stN) ∧
    "e-" ∉ ([] : List String) := by
  constructor
  · rfl
  · simp

/-- A compound with a stored structure, resolved through `extW`. -/
def cW8 : Compound := ⟨"KEGG", "C00008", some "SI", [], 0, [1], [0]⟩

/-- Claim C8 witness: with one determinable compound present, the electron
pseudo-element column exists. -/
theorem claimC8_witness :
    (∃ c ∈ [cW8], c.inchi ≠ none) ∧ "e-" ∈ ematrixElements extW [cW8] :=
  ⟨⟨cW8, by simp, by simp [cW8]⟩,
    (claimC8 extW [cW8]).2.2.1 ⟨cW8, by simp, by simp [cW8]⟩⟩

/-- External collaborators for the additions path: the predictor succeeds on
the addition's InChI with one pKa of 5 and a dominant species with one
hydrogen and no charge, while the KEGG resolver finds nothing. -/
def extA : Externals :=
  { getDissociationConstants := fun _ => some ([5], "S")
    smiles2inchi := fun _ => some "SI"
    getAtomBagAndCharge := fun _ => ([("H", 1)], 0)
    get_inchi := fun _ => none
    atomicNum := fun _ => 1 }

/-- The compound the additions path stores for the proton row `(80, "X")`
under `extA`: a predictor-derived two-species ladder. -/
def compAdd : Compound := ⟨"KEGG", "C00080", some "X", [5], 0, [1, 2], [0, 1]⟩

/-- The state after reconciling the single addition row `(80, "X")` into an
empty cache under `extA`. -/
def stAdd : CacheState := ⟨[("C00080", compAdd)], [], true⟩

/-- Claim C10: the additions-reconciliation path derives ladders with
`get_species_pka` directly, bypassing the exclusion set and absent-structure
check of `from_kegg`; for the proton C00080 it stores a predictor-derived
ladder different from the degenerate ladder `from_kegg` would produce, so the
two construction paths disagree on excluded identities. -/
theorem claimC10 :
    CompoundCacher.get_kegg_additions extA [(80, "X")] ⟨[], [], false⟩ =
      some stAdd ∧
    compAdd.pKas ≠ [] ∧
    Compound.from_kegg extA 80 =
      some ⟨"KEGG", "C00080", none, [], 0, [0], [0]⟩ ∧
    compAdd ≠ ⟨"KEGG", "C00080", none, [], 0, [0], [0]⟩ := by
  refine ⟨?_, ?_, ?_, ?_⟩
  · rfl
  · decide
  · rfl
  · decide
